import Mathlib

/-!
Verification of `pyscf/agf2/uagf2.py`: auxiliary second-order Green's function
perturbation theory for unrestricted (spin-polarized) references.

Python functions are shallowly embedded as Lean functions over exact rational
arithmetic.  External collaborators (`pyscf.lib`, `pyscf.agf2.aux`,
`pyscf.agf2.chempot`, `pyscf.agf2.ragf2`, `ao2mo`), whose sources live outside
the verified tree, enter as explicit function parameters; where their
behaviour matters they are modelled from the design document.  Fallible
Python execution (TypeError on bad call binding, NameError on unbound names,
AssertionError) is embedded in the `Except` monad.
-/

namespace Uagf2

/-- Python runtime errors raised by the embedded code paths. -/
inductive PyErr where
  | typeError : String → PyErr
  | nameError : String → PyErr
  | assertionError : PyErr
  deriving DecidableEq

/-- Equality of embedded fallible results is decidable. -/
instance instDecEqExcept {ε α : Type} [DecidableEq ε] [DecidableEq α] :
    DecidableEq (Except ε α) := fun a b =>
  match a, b with
  | .error e1, .error e2 =>
    if h : e1 = e2 then .isTrue (by rw [h]) else .isFalse (by simp [h])
  | .ok v1, .ok v2 =>
    if h : v1 = v2 then .isTrue (by rw [h]) else .isFalse (by simp [h])
  | .error _, .ok _ => .isFalse (by simp)
  | .ok _, .error _ => .isFalse (by simp)

/- ### Quasi-particle transform dispatch and the streamed (outcore) path

`build_se_part` (uagf2.py lines 94-99) estimates the memory cost of the
materialized quasi-particle tensor and dispatches to
`_make_qmo_eris_incore` or `_make_qmo_eris_outcore`. -/

/-- Positional parameter names of `_make_qmo_eris_outcore` (uagf2.py line
783): `def _make_qmo_eris_outcore(agf2, eri, gf_occ, gf_vir):` — note there
is no `spin` parameter. -/
def qmoOutcoreParams : List String := ["agf2", "eri", "gf_occ", "gf_vir"]

/-- Keyword arguments supplied at the only call site of
`_make_qmo_eris_outcore` (uagf2.py line 99): `spin=spin`. -/
def qmoOutcoreCallKwargs : List String := ["spin"]

/-- Python call binding: a keyword argument whose name is not among the
callee's parameters raises `TypeError: unexpected keyword argument`. -/
def pyUnexpectedKw (params kwargs : List String) : Option String :=
  kwargs.find? (fun k => !(params.contains k))

/-- The call `_make_qmo_eris_outcore(agf2, eri, gf_occ, gf_vir, spin=spin)`
(uagf2.py line 99).  Python binds arguments before entering the body, so the
body is reached only when every keyword names a parameter. -/
def callQmoEriOutcore {T : Type} (body : Except PyErr T) : Except PyErr T :=
  match pyUnexpectedKw qmoOutcoreParams qmoOutcoreCallKwargs with
  | some k => .error (.typeError k)
  | none => body

/-- Local names bound in `_make_qmo_eris_outcore` at the moment line 796
executes: the four parameters plus `cput0`, `log` (lines 792-793) and
`nmoa`, `nmob` (line 795). -/
def qmoOutcoreLocals796 : List String :=
  ["agf2", "eri", "gf_occ", "gf_vir", "cput0", "log", "nmoa", "nmob"]

/-- Module-level names of `pyscf/agf2/uagf2.py`: the imports (lines 24-33),
the `BLKMIN` constant (line 35), and the module's own functions and classes.
Neither `nmo` nor `spin` is among them, and neither is a Python builtin. -/
def uagf2ModuleGlobals : List String :=
  ["time", "np", "lib", "logger", "__config__", "ao2mo", "_vhf", "aux",
   "mpi_helper", "ragf2", "binsearch_chempot", "minimize_chempot",
   "get_nocc", "get_nmo", "get_frozen_mask", "BLKMIN", "kernel",
   "build_se_part", "get_jk", "get_fock", "fock_loop", "energy_1body",
   "energy_2body", "energy_mp2", "UAGF2", "_mo_energy_without_core",
   "_mo_without_core", "_ChemistsERIs", "_make_mo_eris_incore",
   "_make_mo_eris_outcore", "_make_qmo_eris_incore",
   "_make_qmo_eris_outcore"]

/-- Python name resolution for a loaded name: function locals, then module
globals (the builtins hold none of the names of interest here); an unbound
name raises `NameError`. -/
def pyLoadName (locs globs : List String) (n : String) : Except PyErr Unit :=
  if locs.contains n || globs.contains n then .ok () else .error (.nameError n)

/-- Body of `_make_qmo_eris_outcore` from its first name-reading statement:
line 796 evaluates `nmo*(nmo+1)//2`, loading the name `nmo`, which the
function never binds (it binds `nmoa` and `nmob`).  `rest` stands for the
remainder of the body, which is never reached. -/
def qmoOutcoreBody796 {T : Type} (rest : Except PyErr T) : Except PyErr T :=
  pyLoadName qmoOutcoreLocals796 uagf2ModuleGlobals "nmo" >>= fun _ => rest

/-- Memory estimate for the materialized quasi-particle tensor,
`(nmoa*noa*(noa*nva+nob*nvb)) * 8/1e6` MB (uagf2.py line 94). -/
def mem_incore_qmo (nmoa noa nob nva nvb : ℕ) : ℚ :=
  ((nmoa * noa * (noa * nva + nob * nvb) : ℕ) : ℚ) * 8 / 1000000

/-- Strategy selection of `build_se_part` (uagf2.py lines 94-99): if the
estimate plus current usage fits the budget, the materialized transform runs
(`incore` is its result); otherwise the streamed transform is called — with
the keyword `spin`, and with `outcoreRest` standing for the part of its body
after the failing line 796. -/
def qmo_eri_dispatch {T : Type} (nmoa noa nob nva nvb : ℕ)
    (mem_now max_memory : ℚ)
    (incore : Except PyErr T) (outcoreRest : Except PyErr T) :
    Except PyErr T :=
  if mem_incore_qmo nmoa noa nob nva nvb + mem_now < max_memory then
    incore
  else
    callQmoEriOutcore (qmoOutcoreBody796 outcoreRest)

/- ### `init_aux` chemical potentials (uagf2.py lines 498-530) -/

/-- Hartree-Fock-level Green's function as built by `init_aux` (uagf2.py
lines 520-521): per-spin orbital energies (the coupling is the identity
matrix) and a chemical potential. -/
structure HfGf where
  energy : List ℚ
  chempot : ℚ
  deriving DecidableEq

/-- Green's-function construction of `init_aux` (uagf2.py lines 517-521),
parameterized over the external bisection search `binsearch_chempot`
(`pyscf.agf2.chempot`), which returns a `(chemical potential, residual
error)` pair.  Line 517 takes component `[0]` of the alpha search;
line 518 takes component `[1]` — the residual-error component — of the
beta search. -/
def init_aux_gfs {F : Type} (binsearch : F → ℕ → ℕ → ℚ × ℚ)
    (focka fockb : F) (nmoa nmob nocca noccb : ℕ)
    (moe_a moe_b : List ℚ) : HfGf × HfGf :=
  let cpt_a := (binsearch focka nmoa nocca).1
  let cpt_b := (binsearch fockb nmob noccb).2
  (⟨moe_a, cpt_a⟩, ⟨moe_b, cpt_b⟩)

/- ### `get_fock` (uagf2.py lines 141-176) -/

/-- Integral-container fields used by `get_fock` (class `_ChemistsERIs`,
uagf2.py lines 618-663): per-spin one-electron matrices and the four
spin-pair integral blocks. -/
structure ChemistsERIs (T4 F : Type) where
  h1e_a : F
  h1e_b : F
  eri_aa : T4
  eri_ab : T4
  eri_ba : T4
  eri_bb : T4

/-- External collaborators of `get_fock`: `agf2.make_rdm1` (density matrices
from a Green's-function pair, occupancy 1) and `ragf2.get_jk` (Coulomb /
exchange contractions; the Bool mirrors the `with_k` flag). -/
structure GetFockDeps (T4 F R GFp : Type) where
  make_rdm1 : GFp → R × R
  get_jk : T4 → R → Bool → F × F

/-- Embedding of `get_fock` (uagf2.py lines 141-176).  If `gf` is passed the
density is recomputed from it (lines 162-163), overwriting any supplied
`rdm1`; `assert rdm1 is not None` (line 164) raises when neither is given.
Lines 166-172 assemble the per-spin Fock matrices. -/
def get_fock {T4 F R GFp : Type} [Add F] [Sub F]
    (O : GetFockDeps T4 F R GFp) (eri : ChemistsERIs T4 F)
    (gf : Option GFp) (rdm1 : Option (R × R)) : Except PyErr (F × F) :=
  let rdm1 := match gf with
    | some g => some (O.make_rdm1 g)
    | none => rdm1
  match rdm1 with
  | none => .error .assertionError
  | some r =>
    let vjk_aa := O.get_jk eri.eri_aa r.1 true
    let vjk_bb := O.get_jk eri.eri_bb r.2 true
    let vj_ab := (O.get_jk eri.eri_ab r.2 false).1
    let vj_ba := (O.get_jk eri.eri_ba r.1 false).1
    let fock_a := eri.h1e_a + vjk_aa.1 + vj_ab - vjk_aa.2
    let fock_b := eri.h1e_b + vjk_bb.1 + vj_ba - vjk_bb.2
    .ok (fock_a, fock_b)

/- ### Energy evaluator (uagf2.py lines 312-356) -/

/-- Modelled from the spec: `ragf2.energy_2body` (in `pyscf/agf2/ragf2.py`,
outside the verified tree) — the "external same-spin moment contraction over
(Green's function, self-energy)" of spec section 4.4.  The contraction is an
explicit parameter. -/
def ragf2_energy_2body {GFt SEt : Type} (contraction : GFt → SEt → ℚ)
    (gf : GFt) (se : SEt) : ℚ :=
  contraction gf se

/-- Modelled from the spec: `ragf2.energy_mp2` (outside the verified tree) —
the "identical contraction applied to the initial, non-self-consistent
self-energy", whose value per the one- and two-body energy partition "is half of
`energy_2body`" (spec section 4.4; restated by the delegating docstring at
uagf2.py lines 335-339). -/
def ragf2_energy_mp2 {GFt SEt : Type} (contraction : GFt → SEt → ℚ)
    (gf : GFt) (se : SEt) : ℚ :=
  ragf2_energy_2body contraction gf se * (1/2)

/-- `energy_2body` (uagf2.py lines 312-332): per-spin delegation to the
restricted-code contraction, summed over spins and halved (line 330). -/
def energy_2body {GFt SEt : Type} (contraction : GFt → SEt → ℚ)
    (gf : GFt × GFt) (se : SEt × SEt) : ℚ :=
  (ragf2_energy_2body contraction gf.1 se.1 +
    ragf2_energy_2body contraction gf.2 se.2) * (1/2)

/-- `energy_mp2` (uagf2.py lines 335-356): per-spin delegation to the
restricted-code seed contraction, summed over spins and halved (line 354). -/
def energy_mp2 {GFt SEt : Type} (contraction : GFt → SEt → ℚ)
    (gf : GFt × GFt) (se : SEt × SEt) : ℚ :=
  (ragf2_energy_mp2 contraction gf.1 se.1 +
    ragf2_energy_mp2 contraction gf.2 se.2) * (1/2)

/- ### Self-energy moment accumulation (uagf2.py lines 70-126)

`_build_se_part_spin` accumulates the zeroth (`vv`) and first (`vev`) moment
matrices of the occupied (or, with swapped arguments, virtual) self-energy
for one spin.  The spin slice of lines 77-86 only selects which quantities
play the "same-spin" (`a`) and "cross-spin" (`b`) roles, so a single generic
embedding covers both spins and both build directions. -/

/-- Inputs of the single-spin build after the spin slice: pole energies of
the same-spin (`eoa`, `eva`) and cross-spin (`eob`, `evb`) occupied and
virtual Green's functions, and the two quasi-particle tensors returned by
the transform, of shapes `(nmoa, noa, noa, nva)` and `(nmoa, noa, nob, nvb)`
(lines 101, 759-760). -/
structure SePartInput (nmoa noa nob nva nvb : ℕ) where
  eoa : Fin noa → ℚ
  eob : Fin nob → ℚ
  eva : Fin nva → ℚ
  evb : Fin nvb → ℚ
  qeri_aa : Fin nmoa → Fin noa → Fin noa → Fin nva → ℚ
  qeri_ab : Fin nmoa → Fin noa → Fin nob → Fin nvb → ℚ

/-- `lib.dot(x, y.T, alpha=a, beta=1, c=c)`: the rank-k update
`a * x yᵀ + c` used at lines 111-120. -/
def libDotT {m : ℕ} {κ : Type} [Fintype κ] (alpha : ℚ)
    (x y : Fin m → κ → ℚ) (c : Fin m → Fin m → ℚ) : Fin m → Fin m → ℚ :=
  fun p q => alpha * (∑ k, x p k * y q k) + c p q

variable {nmoa noa nob nva nvb : ℕ}

/-- `xija_aa = qeri_aa[:,i].reshape(nmoa, -1)` (line 104); the flattened
column index runs over pairs `(j, a)`. -/
def xija_aa (inp : SePartInput nmoa noa nob nva nvb) (i : Fin noa) :
    Fin nmoa → Fin noa × Fin nva → ℚ :=
  fun p ja => inp.qeri_aa p i ja.1 ja.2

/-- `xija_ab = qeri_ab[:,i].reshape(nmoa, -1)` (line 105). -/
def xija_ab (inp : SePartInput nmoa noa nob nva nvb) (i : Fin noa) :
    Fin nmoa → Fin nob × Fin nvb → ℚ :=
  fun p jb => inp.qeri_ab p i jb.1 jb.2

/-- `xjia_aa = qeri_aa[:,:,i].reshape(nmoa, -1)` (line 106): the same-spin
block with the two occupied auxiliary axes exchanged. -/
def xjia_aa (inp : SePartInput nmoa noa nob nva nvb) (i : Fin noa) :
    Fin nmoa → Fin noa × Fin nva → ℚ :=
  fun p ja => inp.qeri_aa p ja.1 i ja.2

/-- `eija_aa = eja_a + gfo_a.energy[i]` (lines 91, 108): the combined
two-hole-one-particle pole energy `e_j - e_a + e_i`. -/
def eija_aa (inp : SePartInput nmoa noa nob nva nvb) (i : Fin noa) :
    Fin noa × Fin nva → ℚ :=
  fun ja => inp.eoa ja.1 - inp.eva ja.2 + inp.eoa i

/-- `eija_ab = eja_b + gfo_a.energy[i]` (lines 92, 109). -/
def eija_ab (inp : SePartInput nmoa noa nob nva nvb) (i : Fin noa) :
    Fin nob × Fin nvb → ℚ :=
  fun jb => inp.eob jb.1 - inp.evb jb.2 + inp.eoa i

/-- `exija_aa = xija_aa * eija_aa[None]` (line 115): the block weighted
elementwise by the combined pole energy. -/
def exija_aa (inp : SePartInput nmoa noa nob nva nvb) (i : Fin noa) :
    Fin nmoa → Fin noa × Fin nva → ℚ :=
  fun p ja => xija_aa inp i p ja * eija_aa inp i ja

/-- `exija_ab = xija_ab * eija_ab[None]` (line 116). -/
def exija_ab (inp : SePartInput nmoa noa nob nva nvb) (i : Fin noa) :
    Fin nmoa → Fin nob × Fin nvb → ℚ :=
  fun p jb => xija_ab inp i p jb * eija_ab inp i jb

/-- Loop body for `vv` (lines 111-113), in source order: direct same-spin
update, exchange same-spin update with `alpha=-1`, cross-spin update. -/
def vvStep (inp : SePartInput nmoa noa nob nva nvb) (i : Fin noa)
    (vv : Fin nmoa → Fin nmoa → ℚ) : Fin nmoa → Fin nmoa → ℚ :=
  libDotT 1 (xija_ab inp i) (xija_ab inp i)
    (libDotT (-1) (xija_aa inp i) (xjia_aa inp i)
      (libDotT 1 (xija_aa inp i) (xija_aa inp i) vv))

/-- Loop body for `vev` (lines 118-120): same structure with the left factor
energy-weighted. -/
def vevStep (inp : SePartInput nmoa noa nob nva nvb) (i : Fin noa)
    (vev : Fin nmoa → Fin nmoa → ℚ) : Fin nmoa → Fin nmoa → ℚ :=
  libDotT 1 (exija_ab inp i) (xija_ab inp i)
    (libDotT (-1) (exija_aa inp i) (xjia_aa inp i)
      (libDotT 1 (exija_aa inp i) (xija_aa inp i) vev))

/-- The accumulation loop `for i in range(noa)` of `_build_se_part_spin`
(lines 88-120), starting from `np.zeros((nmoa, nmoa))`. -/
def sePartMoments (inp : SePartInput nmoa noa nob nva nvb) :
    (Fin nmoa → Fin nmoa → ℚ) × (Fin nmoa → Fin nmoa → ℚ) :=
  (List.finRange noa).foldl
    (fun c i => (vvStep inp i c.1, vevStep inp i c.2))
    (fun _ _ => 0, fun _ _ => 0)

/- Specification-side moment expressions, written as the claim states them:
a sum over same-spin hole poles of a direct outer product, minus the same
outer product with the two occupied auxiliary axes of one factor swapped,
plus the cross-spin direct outer product with no exchange term; the first
moment has identical structure with each block elementwise weighted by the
combined pole energy before the outer product. -/

/-- Direct term for hole `i`: the same-spin quasi-particle block
outer-producted with itself. -/
def qpDirect (inp : SePartInput nmoa noa nob nva nvb) (i : Fin noa)
    (p q : Fin nmoa) : ℚ :=
  ∑ j, ∑ a, inp.qeri_aa p i j a * inp.qeri_aa q i j a

/-- Exchange term for hole `i`: the same outer product with the two occupied
auxiliary axes of the second factor swapped. -/
def qpExch (inp : SePartInput nmoa noa nob nva nvb) (i : Fin noa)
    (p q : Fin nmoa) : ℚ :=
  ∑ j, ∑ a, inp.qeri_aa p i j a * inp.qeri_aa q j i a

/-- Cross-spin direct term for hole `i` (no exchange counterpart). -/
def qpCross (inp : SePartInput nmoa noa nob nva nvb) (i : Fin noa)
    (p q : Fin nmoa) : ℚ :=
  ∑ j, ∑ b, inp.qeri_ab p i j b * inp.qeri_ab q i j b

/-- Combined pole energy of the same-spin hole pair `(i, j)` and particle
`a`: hole energies plus the (negated) particle energy, `e_i + e_j - e_a`. -/
def combE (inp : SePartInput nmoa noa nob nva nvb) (i j : Fin noa)
    (a : Fin nva) : ℚ :=
  inp.eoa i + inp.eoa j - inp.eva a

/-- Combined pole energy with the cross-spin hole `j` and particle `b`. -/
def combECross (inp : SePartInput nmoa noa nob nva nvb) (i : Fin noa)
    (j : Fin nob) (b : Fin nvb) : ℚ :=
  inp.eoa i + inp.eob j - inp.evb b

/-- Energy-weighted direct term: the block weighted elementwise by the
combined pole energy before the outer product. -/
def qpDirectE (inp : SePartInput nmoa noa nob nva nvb) (i : Fin noa)
    (p q : Fin nmoa) : ℚ :=
  ∑ j, ∑ a, inp.qeri_aa p i j a * combE inp i j a * inp.qeri_aa q i j a

/-- Energy-weighted exchange term. -/
def qpExchE (inp : SePartInput nmoa noa nob nva nvb) (i : Fin noa)
    (p q : Fin nmoa) : ℚ :=
  ∑ j, ∑ a, inp.qeri_aa p i j a * combE inp i j a * inp.qeri_aa q j i a

/-- Energy-weighted cross-spin direct term. -/
def qpCrossE (inp : SePartInput nmoa noa nob nva nvb) (i : Fin noa)
    (p q : Fin nmoa) : ℚ :=
  ∑ j, ∑ b, inp.qeri_ab p i j b * combECross inp i j b * inp.qeri_ab q i j b

/-- Specification zeroth moment `V`. -/
def specV (inp : SePartInput nmoa noa nob nva nvb) :
    Fin nmoa → Fin nmoa → ℚ :=
  fun p q => ∑ i, (qpDirect inp i p q - qpExch inp i p q + qpCross inp i p q)

/-- Specification first moment `VE`. -/
def specVE (inp : SePartInput nmoa noa nob nva nvb) :
    Fin nmoa → Fin nmoa → ℚ :=
  fun p q =>
    ∑ i, (qpDirectE inp i p q - qpExchE inp i p q + qpCrossE inp i p q)

/- ### The Dyson/Fock solver `fock_loop` (uagf2.py lines 179-280)

The loop logic lives in the verified tree; its collaborators
(`minimize_chempot` and `binsearch_chempot` from `pyscf.agf2.chempot`,
`SelfEnergy.eig` and `GreensFunction` from `pyscf.agf2.aux`, `lib.diis.DIIS`,
and the bound methods `agf2.get_fock` / `agf2.make_rdm1` with the integral
container already applied) do not, and per spec sections 5-6 are pure
functions of their arguments; they enter as an oracle record.  Variables
that Python leaves unbound until some iteration assigns them (`rdm1a_prev`,
`nerr`, `derr`, ...) are `Option`-valued, and reading an unbound one raises
`NameError` exactly where the source would. -/

/-- Configuration read from the `UAGF2` object by `fock_loop` (lines
213-226): extrapolation-space sizes, per-spin electron and orbital counts,
iteration limits and tolerances. -/
structure FockCfg where
  conv_tol_rdm1 : ℚ
  conv_tol_nelec : ℚ
  max_cycle_outer : ℕ
  max_cycle_inner : ℕ
  diis_space : ℕ
  diis_min_space : ℕ
  nmoa : ℕ
  nmob : ℕ
  nalph : ℕ
  nbeta : ℕ
  deriving DecidableEq

/-- External collaborators of `fock_loop`, over abstract types for Green's
functions, self-energies, Fock matrices, eigenpairs and DIIS accumulators.
Density matrices are concrete (flattened `List ℚ`) because the loop itself
computes on them (lines 254-255). -/
structure FockOracles (GFt SEt F E D : Type) where
  minimize_chempot : SEt → F → ℕ → SEt
  eig0 : SEt → F → E
  eig : SEt → F → E
  binsearch_chempot : E → ℕ → ℕ → ℚ × ℚ
  set_chempot : SEt → ℚ → SEt
  mk_gf : E → ℕ → ℚ → GFt
  get_fock_kw : GFt × GFt → F × F
  get_fock : GFt × GFt → F × F
  make_rdm1 : GFt × GFt → List ℚ × List ℚ
  diis_new : ℕ → ℕ → D
  diis_update : D → F × F → D × (F × F)

/-- The local state of one `fock_loop` invocation.  `Option` fields are the
Python locals that start unbound. -/
structure FockState (GFt SEt F D : Type) where
  sea : SEt
  seb : SEt
  gfa : GFt
  gfb : GFt
  focka : F
  fockb : F
  diis : D
  rdm1a_prev : Option (List ℚ)
  rdm1b_prev : Option (List ℚ)
  nerra : Option ℚ
  nerrb : Option ℚ
  nerr : Option ℚ
  derra : Option ℚ
  derrb : Option ℚ
  derr : Option ℚ
  niter2 : Option ℕ
  deriving DecidableEq

/-- `np.max(np.absolute(x - y))` on flattened density matrices (lines
254-255); the fold starts at 0, which agrees with numpy on every nonempty
array since the entries are absolute values. -/
def npMaxAbsDiff (x y : List ℚ) : ℚ :=
  (List.zipWith (fun u v => |u - v|) x y).foldl max 0

variable {GFt SEt F E D : Type}

/-- One inner-loop iteration up to the DIIS extrapolation (lines 235-251),
written in projection style mirroring Python's tuple unpacking.  Returns the
updated state together with the fresh density matrices `(rdm1a, rdm1b)`. -/
def innerCore (O : FockOracles GFt SEt F E D) (cfg : FockCfg) (n2 : ℕ)
    (s : FockState GFt SEt F D) :
    FockState GFt SEt F D × (List ℚ × List ℚ) :=
  let wva := O.eig0 s.sea s.focka
  let wvb := O.eig0 s.seb s.fockb
  let bsa := O.binsearch_chempot wva cfg.nmoa cfg.nalph
  let bsb := O.binsearch_chempot wvb cfg.nmob cfg.nbeta
  let sea := O.set_chempot s.sea bsa.1
  let seb := O.set_chempot s.seb bsb.1
  let nerr := max bsa.2 bsb.2
  let gfa := O.mk_gf (O.eig sea s.focka) cfg.nmoa bsa.1
  let gfb := O.mk_gf (O.eig seb s.fockb) cfg.nmob bsb.1
  let fk := O.get_fock (gfa, gfb)
  let rdm := O.make_rdm1 (gfa, gfb)
  let du := O.diis_update s.diis fk
  ({ s with
      sea := sea
      seb := seb
      gfa := gfa
      gfb := gfb
      focka := du.2.1
      fockb := du.2.2
      diis := du.1
      nerra := some bsa.2
      nerrb := some bsb.2
      nerr := some nerr
      niter2 := some n2 }, rdm)

/-- Full inner-loop body including the density-change block (lines 253-262):
on iterations after the first it reads the previous density matrices
(NameError if unbound), computes `derr`, and `break`s (result flag `true`)
when below `conv_tol_rdm1`; otherwise the previous-density slots are
refreshed. -/
def innerBody (O : FockOracles GFt SEt F E D) (cfg : FockCfg) (n2 : ℕ)
    (s : FockState GFt SEt F D) :
    Except PyErr (FockState GFt SEt F D × Bool) :=
  let c := innerCore O cfg n2 s
  let s1 := c.1
  let rdm1a := c.2.1
  let rdm1b := c.2.2
  if 1 < n2 then
    match s.rdm1a_prev, s.rdm1b_prev with
    | some pa, some pb =>
      let derra := npMaxAbsDiff rdm1a pa
      let derrb := npMaxAbsDiff rdm1b pb
      let derr := max derra derrb
      let s2 := { s1 with
                  derra := some derra
                  derrb := some derrb
                  derr := some derr }
      if derr < cfg.conv_tol_rdm1 then .ok (s2, true)
      else .ok ({ s2 with
                  rdm1a_prev := some rdm1a
                  rdm1b_prev := some rdm1b }, false)
    | _, _ => .error (.nameError "rdm1a_prev")
  else
    .ok ({ s1 with rdm1a_prev := some rdm1a, rdm1b_prev := some rdm1b },
      false)

/-- `for niter2 in range(1, max_cycle_inner+1)` (line 234): `n2` is the
iteration counter, the second argument the remaining iteration budget. -/
def innerLoop (O : FockOracles GFt SEt F E D) (cfg : FockCfg) :
    ℕ → ℕ → FockState GFt SEt F D → Except PyErr (FockState GFt SEt F D)
  | _, 0, s => .ok s
  | n2, fuel+1, s =>
    match innerBody O cfg n2 s with
    | .error e => .error e
    | .ok (s1, brk) =>
      if brk then .ok s1 else innerLoop O cfg (n2+1) fuel s1

/-- One outer iteration (lines 229-270): per-spin chemical-potential
minimization, the inner loop, the end-of-iteration report (line 264, which
evaluates `niter2`, `nerr` and `derr` left-to-right and raises NameError on
any unbound one), then the convergence test of line 268.  The Bool is
whether the test passed (outer `break` with `converged = True`). -/
def outerBody (O : FockOracles GFt SEt F E D) (cfg : FockCfg)
    (s : FockState GFt SEt F D) :
    Except PyErr (FockState GFt SEt F D × Bool) :=
  let sea := O.minimize_chempot s.sea s.focka cfg.nalph
  let seb := O.minimize_chempot s.seb s.fockb cfg.nbeta
  match innerLoop O cfg 1 cfg.max_cycle_inner
      { s with sea := sea, seb := seb } with
  | .error e => .error e
  | .ok s1 =>
    match s1.niter2 with
    | none => .error (.nameError "niter2")
    | some _ =>
      match s1.nerr with
      | none => .error (.nameError "nerr")
      | some nerr =>
        match s1.derr with
        | none => .error (.nameError "derr")
        | some derr =>
          if derr < cfg.conv_tol_rdm1 ∧ |nerr| < cfg.conv_tol_nelec then
            .ok (s1, true)
          else .ok (s1, false)

/-- `for niter1 in range(1, max_cycle_outer+1)` (line 228), with the
`converged` flag initialized `False` (line 225) and set on the line 268
test. -/
def outerLoop (O : FockOracles GFt SEt F E D) (cfg : FockCfg) :
    ℕ → FockState GFt SEt F D →
    Except PyErr (FockState GFt SEt F D × Bool)
  | 0, s => .ok (s, false)
  | fuel+1, s =>
    match outerBody O cfg s with
    | .error e => .error e
    | .ok (s1, conv) =>
      if conv then .ok (s1, true) else outerLoop O cfg fuel s1

/-- `fock_loop` (lines 179-280), returning the full final state and the
`converged` flag.  The `carried` argument models any extrapolation state
surviving from a previous invocation: line 213 constructs the DIIS
accumulator afresh (`lib.diis.DIIS(agf2)`, lines 213-215), so `carried` is
discarded at entry.  The final report (lines 275-278) evaluates `nerra`,
`derra`, `nerrb`, `derrb` and raises NameError on any unbound one. -/
def fock_loop_run (O : FockOracles GFt SEt F E D) (cfg : FockCfg)
    (gfa : GFt) (gfb : GFt) (sea : SEt) (seb : SEt) (_carried : D) :
    Except PyErr (FockState GFt SEt F D × Bool) :=
  let diis := O.diis_new cfg.diis_space cfg.diis_min_space
  let fk := O.get_fock_kw (gfa, gfb)
  let s0 : FockState GFt SEt F D :=
    ⟨sea, seb, gfa, gfb, fk.1, fk.2, diis,
     none, none, none, none, none, none, none, none, none⟩
  match outerLoop O cfg cfg.max_cycle_outer s0 with
  | .error e => .error e
  | .ok sc =>
    match sc.1.nerra with
    | none => .error (.nameError "nerra")
    | some _ =>
      match sc.1.derra with
      | none => .error (.nameError "derra")
      | some _ =>
        match sc.1.nerrb with
        | none => .error (.nameError "nerrb")
        | some _ =>
          match sc.1.derrb with
          | none => .error (.nameError "derrb")
          | some _ => .ok sc

/-- The caller-visible return `gf, se, converged` (line 280). -/
def fock_loop (O : FockOracles GFt SEt F E D) (cfg : FockCfg)
    (gfa : GFt) (gfb : GFt) (sea : SEt) (seb : SEt) (carried : D) :
    Except PyErr ((GFt × GFt) × (SEt × SEt) × Bool) :=
  match fock_loop_run O cfg gfa gfb sea seb carried with
  | .error e => .error e
  | .ok sc => .ok ((sc.1.gfa, sc.1.gfb), (sc.1.sea, sc.1.seb), sc.2)

/-- Locals that every executed inner iteration leaves assigned. -/
def InnerAssigned (s : FockState GFt SEt F D) : Prop :=
  s.rdm1a_prev.isSome = true ∧ s.rdm1b_prev.isSome = true ∧
    s.nerra.isSome = true ∧ s.nerrb.isSome = true ∧
    s.nerr.isSome = true ∧ s.niter2.isSome = true

/-- Locals assigned once some inner iteration beyond the first has run. -/
def FullAssigned (s : FockState GFt SEt F D) : Prop :=
  InnerAssigned s ∧ s.derra.isSome = true ∧ s.derrb.isSome = true ∧
    s.derr.isSome = true

/- Concrete instantiations used to exercise the solver. -/

/-- Trivial collaborators over unit carrier types: the bisection returns
chemical potential 0 with residual 0, and the density matrices are constant
(so their change between iterations is 0). -/
def unitOracles : FockOracles Unit Unit Unit Unit Unit where
  minimize_chempot := fun _ _ _ => ()
  eig0 := fun _ _ => ()
  eig := fun _ _ => ()
  binsearch_chempot := fun _ _ _ => (0, 0)
  set_chempot := fun _ _ => ()
  mk_gf := fun _ _ _ => ()
  get_fock_kw := fun _ => ((), ())
  get_fock := fun _ => ((), ())
  make_rdm1 := fun _ => ([], [])
  diis_new := fun _ _ => ()
  diis_update := fun d _ => (d, ((), ()))

/-- Collaborators whose bisection leaves a signed residual of `-2` (two
electrons below target) on the one-electron (alpha) channel and `0` on the
two-electron (beta) channel. -/
def skewOracles : FockOracles Unit Unit Unit Unit Unit :=
  { unitOracles with
    binsearch_chempot := fun _ _ nelec =>
      if nelec = 1 then (0, -2) else (0, 0) }

/-- Electron-count and density tolerances of 1, one outer cycle, two inner
cycles, one orbital per spin, one alpha and two beta electrons. -/
def skewCfg : FockCfg :=
  ⟨1, 1, 1, 2, 6, 1, 1, 1, 1, 2⟩

/-- A configuration that can never meet the density tolerance (`derr < 0` is
impossible), with two inner and one outer cycle. -/
def neverConvCfg : FockCfg :=
  ⟨0, 0, 1, 2, 6, 1, 1, 1, 1, 1⟩

/-- A configuration with `max_cycle_inner = 1`. -/
def innerOneCfg : FockCfg :=
  ⟨1, 1, 1, 1, 6, 1, 1, 1, 1, 1⟩

/- ### Theorems -/

/-- One `vv` loop iteration adds the direct-minus-exchange-plus-cross value
for its hole index. -/
theorem vvStep_apply (inp : SePartInput nmoa noa nob nva nvb) (i : Fin noa)
    (vv : Fin nmoa → Fin nmoa → ℚ) (p q : Fin nmoa) :
    vvStep inp i vv p q =
      qpDirect inp i p q - qpExch inp i p q + qpCross inp i p q + vv p q := by
  have hd : (∑ k : Fin noa × Fin nva,
      xija_aa inp i p k * xija_aa inp i q k) = qpDirect inp i p q := by
    simp [qpDirect, Fintype.sum_prod_type, xija_aa]
  have hx : (∑ k : Fin noa × Fin nva,
      xija_aa inp i p k * xjia_aa inp i q k) = qpExch inp i p q := by
    simp [qpExch, Fintype.sum_prod_type, xija_aa, xjia_aa]
  have hc : (∑ k : Fin nob × Fin nvb,
      xija_ab inp i p k * xija_ab inp i q k) = qpCross inp i p q := by
    simp [qpCross, Fintype.sum_prod_type, xija_ab]
  simp only [vvStep, libDotT, hd, hx, hc]
  ring

/-- One `vev` loop iteration adds the energy-weighted value for its hole
index. -/
theorem vevStep_apply (inp : SePartInput nmoa noa nob nva nvb) (i : Fin noa)
    (vev : Fin nmoa → Fin nmoa → ℚ) (p q : Fin nmoa) :
    vevStep inp i vev p q =
      qpDirectE inp i p q - qpExchE inp i p q + qpCrossE inp i p q +
        vev p q := by
  have hd : (∑ k : Fin noa × Fin nva,
      exija_aa inp i p k * xija_aa inp i q k) = qpDirectE inp i p q := by
    simp only [qpDirectE, Fintype.sum_prod_type]
    exact Finset.sum_congr rfl fun j _ => Finset.sum_congr rfl fun a _ => by
      simp only [exija_aa, xija_aa, eija_aa, combE]; ring
  have hx : (∑ k : Fin noa × Fin nva,
      exija_aa inp i p k * xjia_aa inp i q k) = qpExchE inp i p q := by
    simp only [qpExchE, Fintype.sum_prod_type]
    exact Finset.sum_congr rfl fun j _ => Finset.sum_congr rfl fun a _ => by
      simp only [exija_aa, xija_aa, xjia_aa, eija_aa, combE]; ring
  have hc : (∑ k : Fin nob × Fin nvb,
      exija_ab inp i p k * xija_ab inp i q k) = qpCrossE inp i p q := by
    simp only [qpCrossE, Fintype.sum_prod_type]
    exact Finset.sum_congr rfl fun j _ => Finset.sum_congr rfl fun b _ => by
      simp only [exija_ab, xija_ab, eija_ab, combECross]; ring
  simp only [vevStep, libDotT, hd, hx, hc]
  ring

/-- The accumulation loop, run over any list of hole indices from any start,
adds the per-hole spec values entrywise. -/
theorem sePart_foldl_apply (inp : SePartInput nmoa noa nob nva nvb)
    (l : List (Fin noa))
    (c : (Fin nmoa → Fin nmoa → ℚ) × (Fin nmoa → Fin nmoa → ℚ))
    (p q : Fin nmoa) :
    ((l.foldl (fun c i => (vvStep inp i c.1, vevStep inp i c.2)) c).1 p q =
        c.1 p q +
          (l.map (fun i =>
            qpDirect inp i p q - qpExch inp i p q + qpCross inp i p q)).sum) ∧
    ((l.foldl (fun c i => (vvStep inp i c.1, vevStep inp i c.2)) c).2 p q =
        c.2 p q +
          (l.map (fun i =>
            qpDirectE inp i p q - qpExchE inp i p q +
              qpCrossE inp i p q)).sum) := by
  induction l generalizing c with
  | nil => simp
  | cons x tl ih =>
    simp only [List.foldl_cons, List.map_cons, List.sum_cons]
    obtain ⟨h1, h2⟩ := ih (vvStep inp x c.1, vevStep inp x c.2)
    constructor
    · rw [h1]
      show vvStep inp x c.1 p q + _ = _
      rw [vvStep_apply]
      ring
    · rw [h2]
      show vevStep inp x c.2 p q + _ = _
      rw [vevStep_apply]
      ring

/-- C4: for every spin and build direction, the accumulated zeroth moment
`vv` equals the claimed sum over same-spin hole poles of (direct outer
product) minus (exchange: the same outer product with the two occupied
auxiliary axes of one factor swapped) plus (cross-spin direct, no exchange),
and the first moment `vev` has identical term structure with each block
elementwise weighted by the combined pole energy `e_i + e_j - e_a` before
the outer product. -/
theorem se_moments_match_spec (inp : SePartInput nmoa noa nob nva nvb) :
    (sePartMoments inp).1 = specV inp ∧ (sePartMoments inp).2 = specVE inp := by
  constructor
  · funext p q
    have h := (sePart_foldl_apply inp (List.finRange noa)
      (fun _ _ => 0, fun _ _ => 0) p q).1
    simp only [sePartMoments]
    rw [h]
    simp [specV, Fin.sum_univ_def]
  · funext p q
    have h := (sePart_foldl_apply inp (List.finRange noa)
      (fun _ _ => 0, fun _ _ => 0) p q).2
    simp only [sePartMoments]
    rw [h]
    simp [specVE, Fin.sum_univ_def]


/-- C1: the streamed (outcore) quasi-particle transform can never produce a
tensor, so it cannot agree with the materialized one on any input: its only
call site (line 99) passes the keyword `spin`, which the signature (line 783)
lacks, raising TypeError; and even entered directly, the body reads the
unbound name `nmo` (line 796), raising NameError. -/
theorem qmo_outcore_never_produces_tensor :
    (∀ (T : Type) (body : Except PyErr T),
        callQmoEriOutcore body = .error (.typeError "spin")) ∧
    (∀ (T : Type) (rest : Except PyErr T),
        qmoOutcoreBody796 rest = .error (.nameError "nmo")) := by
  constructor
  · intro T body
    rfl
  · intro T rest
    rfl

/-- C3: when the materialized-path memory estimate (line 94) plus current
usage does not fit the budget, `build_se_part` switches to the streamed path
— but that call raises TypeError rather than completing without error:
exceeding the budget does surface as a failure. -/
theorem qmo_dispatch_over_budget_raises
    (nmoa noa nob nva nvb : ℕ) (mem_now max_memory : ℚ) {T : Type}
    (incore outcoreRest : Except PyErr T)
    (h : ¬ (mem_incore_qmo nmoa noa nob nva nvb + mem_now < max_memory)) :
    qmo_eri_dispatch nmoa noa nob nva nvb mem_now max_memory incore
      outcoreRest = .error (.typeError "spin") := by
  unfold qmo_eri_dispatch
  rw [if_neg h]
  rfl

/-- Witness for C3 at a concrete over-budget input: a one-orbital system with
a zero memory budget takes the streamed path and raises. -/
theorem qmo_dispatch_over_budget_raises_witness :
    ¬ (mem_incore_qmo 1 1 1 1 1 + 0 < (0 : ℚ)) ∧
    qmo_eri_dispatch 1 1 1 1 1 0 0 (Except.ok (0 : ℕ)) (Except.ok 0)
      = .error (.typeError "spin") :=
  ⟨by norm_num [mem_incore_qmo],
   qmo_dispatch_over_budget_raises 1 1 1 1 1 0 0 (Except.ok 0) (Except.ok 0)
     (by norm_num [mem_incore_qmo])⟩

/-- C9: `init_aux` does not treat the spins symmetrically.  With identical
alpha and beta channels (same Fock matrix, orbital count, occupied count and
orbital energies) and a bisection returning chemical potential 1/2 with
residual error 0, the alpha Green's function carries chemical potential 1/2
but the beta one carries 0: line 518 stores the residual-error component. -/
theorem init_aux_beta_chempot_is_residual :
    (init_aux_gfs (fun _ _ _ => ((1/2 : ℚ), 0)) () () 2 2 1 1
        [-(1 : ℚ), 1] [-(1 : ℚ), 1]).1.chempot = 1/2 ∧
    (init_aux_gfs (fun _ _ _ => ((1/2 : ℚ), 0)) () () 2 2 1 1
        [-(1 : ℚ), 1] [-(1 : ℚ), 1]).2.chempot = 0 ∧
    ((1 : ℚ)/2) ≠ 0 := by
  refine ⟨rfl, rfl, by norm_num⟩

/-- C10: when both `gf` and `rdm1` are passed, `get_fock` returns exactly
what it returns with `gf` alone: the density matrix is recomputed from `gf`
(lines 162-163) and the supplied `rdm1` is ignored — `gf`, not `rdm1`, takes
precedence (despite the docstring's claim of the opposite). -/
theorem get_fock_gf_precedence {T4 F R GFp : Type} [Add F] [Sub F]
    (O : GetFockDeps T4 F R GFp) (eri : ChemistsERIs T4 F)
    (g : GFp) (r : R × R) :
    get_fock O eri (some g) (some r) = get_fock O eri (some g) none := rfl

/-- C6: the seed (MP2-like) two-body energy equals exactly one half of the
general Galitskii-Migdal two-body energy on the same Green's-function /
self-energy pair: each per-spin seed delegate is half the per-spin general
delegate, and both `energy_mp2` and `energy_2body` combine the spins by the
same sum-and-halve. -/
theorem energy_mp2_half_energy_2body {GFt SEt : Type}
    (contraction : GFt → SEt → ℚ) (gf : GFt × GFt) (se : SEt × SEt) :
    energy_mp2 contraction gf se = energy_2body contraction gf se * (1/2) := by
  unfold energy_mp2 energy_2body ragf2_energy_mp2 ragf2_energy_2body
  ring

/- Dyson/Fock solver lemmas. -/

/-- Fields set (and fields left untouched) by `innerCore`. -/
theorem innerCore_assigned (O : FockOracles GFt SEt F E D) (cfg : FockCfg)
    (n2 : ℕ) (s : FockState GFt SEt F D) :
    (innerCore O cfg n2 s).1.nerra.isSome = true ∧
    (innerCore O cfg n2 s).1.nerrb.isSome = true ∧
    (innerCore O cfg n2 s).1.nerr.isSome = true ∧
    (innerCore O cfg n2 s).1.niter2 = some n2 ∧
    (innerCore O cfg n2 s).1.rdm1a_prev = s.rdm1a_prev ∧
    (innerCore O cfg n2 s).1.rdm1b_prev = s.rdm1b_prev ∧
    (innerCore O cfg n2 s).1.derra = s.derra ∧
    (innerCore O cfg n2 s).1.derrb = s.derrb ∧
    (innerCore O cfg n2 s).1.derr = s.derr :=
  ⟨rfl, rfl, rfl, rfl, rfl, rfl, rfl, rfl, rfl⟩

/-- The first inner iteration never breaks and refreshes the
previous-density slots. -/
theorem innerBody_one (O : FockOracles GFt SEt F E D) (cfg : FockCfg)
    (s : FockState GFt SEt F D) :
    innerBody O cfg 1 s =
      .ok ({ (innerCore O cfg 1 s).1 with
              rdm1a_prev := some (innerCore O cfg 1 s).2.1
              rdm1b_prev := some (innerCore O cfg 1 s).2.2 }, false) := rfl

/-- Inner iterations beyond the first succeed whenever the previous-density
slots are assigned, and leave every tracked local assigned. -/
theorem innerBody_later_ok (O : FockOracles GFt SEt F E D) (cfg : FockCfg)
    {n2 : ℕ} (h : 1 < n2) (s : FockState GFt SEt F D) (pa pb : List ℚ)
    (ha : s.rdm1a_prev = some pa) (hb : s.rdm1b_prev = some pb) :
    ∃ s1 brk, innerBody O cfg n2 s = .ok (s1, brk) ∧ FullAssigned s1 := by
  simp only [innerBody, ha, hb]
  rw [if_pos h]
  split
  · exact ⟨_, true, rfl, ⟨⟨ha ▸ rfl, hb ▸ rfl, rfl, rfl, rfl, rfl⟩,
      rfl, rfl, rfl⟩⟩
  · exact ⟨_, false, rfl, ⟨⟨rfl, rfl, rfl, rfl, rfl, rfl⟩, rfl, rfl, rfl⟩⟩

/-- The inner loop, entered at any iteration beyond the first with assigned
previous-density slots and at least one remaining cycle, completes without
error and leaves every tracked local assigned. -/
theorem innerLoop_ok (O : FockOracles GFt SEt F E D) (cfg : FockCfg) :
    ∀ (fuel n2 : ℕ) (s : FockState GFt SEt F D), 1 < n2 →
      (∃ pa, s.rdm1a_prev = some pa) → (∃ pb, s.rdm1b_prev = some pb) →
      1 ≤ fuel →
      ∃ s1, innerLoop O cfg n2 fuel s = .ok s1 ∧ FullAssigned s1 := by
  intro fuel
  induction fuel with
  | zero => intro n2 s _ _ _ hf; exact absurd hf (by omega)
  | succ k ih =>
    intro n2 s hn2 hpa hpb _
    obtain ⟨pa, ha⟩ := hpa
    obtain ⟨pb, hb⟩ := hpb
    obtain ⟨s1, brk, hbody, hfull⟩ :=
      innerBody_later_ok O cfg hn2 s pa pb ha hb
    cases brk with
    | true =>
      refine ⟨s1, ?_, hfull⟩
      simp [innerLoop, hbody]
    | false =>
      rcases Nat.eq_zero_or_pos k with hk | hk
      · subst hk
        refine ⟨s1, ?_, hfull⟩
        simp [innerLoop, hbody]
      · obtain ⟨s2, hrec, hfull2⟩ := ih (n2+1) s1 (by omega)
          (Option.isSome_iff_exists.mp hfull.1.1)
          (Option.isSome_iff_exists.mp hfull.1.2.1) hk
        refine ⟨s2, ?_, hfull2⟩
        simp [innerLoop, hbody, hrec]

/-- The inner loop entered from the top with at least two cycles of budget
completes without error and leaves every tracked local assigned —
in particular the density-change locals, which only iterations beyond the
first can assign. -/
theorem innerLoop_entry_ok (O : FockOracles GFt SEt F E D) (cfg : FockCfg)
    (s : FockState GFt SEt F D) {fuel : ℕ} (h2 : 2 ≤ fuel) :
    ∃ s1, innerLoop O cfg 1 fuel s = .ok s1 ∧ FullAssigned s1 := by
  obtain ⟨k, rfl⟩ : ∃ k, fuel = k + 1 := ⟨fuel - 1, by omega⟩
  obtain ⟨s2, hrec, hfull⟩ :=
    innerLoop_ok O cfg k 2
      ({ (innerCore O cfg 1 s).1 with
          rdm1a_prev := some (innerCore O cfg 1 s).2.1
          rdm1b_prev := some (innerCore O cfg 1 s).2.2 })
      (by omega) ⟨_, rfl⟩ ⟨_, rfl⟩ (by omega)
  refine ⟨s2, ?_, hfull⟩
  simp [innerLoop, innerBody_one O cfg s, hrec]

/-- One outer iteration with at least two inner cycles of budget completes
without error; its flag is `true` only when the line-268 tolerance test
passed on the state it returns. -/
theorem outerBody_ok (O : FockOracles GFt SEt F E D) (cfg : FockCfg)
    (h2 : 2 ≤ cfg.max_cycle_inner) (s : FockState GFt SEt F D) :
    ∃ s1 conv, outerBody O cfg s = .ok (s1, conv) ∧ FullAssigned s1 ∧
      (conv = true → ∃ d n, s1.derr = some d ∧ s1.nerr = some n ∧
        d < cfg.conv_tol_rdm1 ∧ |n| < cfg.conv_tol_nelec) := by
  obtain ⟨s1, hloop, hfull⟩ := innerLoop_entry_ok O cfg
    ({ s with sea := O.minimize_chempot s.sea s.focka cfg.nalph,
              seb := O.minimize_chempot s.seb s.fockb cfg.nbeta }) h2
  obtain ⟨nv, hnv⟩ := Option.isSome_iff_exists.mp hfull.1.2.2.2.2.2
  obtain ⟨ev, hev⟩ := Option.isSome_iff_exists.mp hfull.1.2.2.2.2.1
  obtain ⟨dv, hdv⟩ := Option.isSome_iff_exists.mp hfull.2.2.2
  by_cases hc : dv < cfg.conv_tol_rdm1 ∧ |ev| < cfg.conv_tol_nelec
  · refine ⟨s1, true, ?_, hfull, fun _ => ⟨dv, ev, hdv, hev, hc.1, hc.2⟩⟩
    simp only [outerBody, hloop, hnv, hev, hdv, if_pos hc]
  · refine ⟨s1, false, ?_, hfull, fun hcontra => absurd hcontra (by simp)⟩
    simp only [outerBody, hloop, hnv, hev, hdv, if_neg hc]

/-- The outer loop with at least one cycle of budget and at least two inner
cycles completes without error; its `converged` flag is `true` only when
the line-268 tolerance test passed on the state it returns, so exhausting
the budget with the test failing everywhere yields `false`. -/
theorem outerLoop_ok (O : FockOracles GFt SEt F E D) (cfg : FockCfg)
    (h2 : 2 ≤ cfg.max_cycle_inner) :
    ∀ (fuel : ℕ) (s : FockState GFt SEt F D), 1 ≤ fuel →
      ∃ s1 conv, outerLoop O cfg fuel s = .ok (s1, conv) ∧
        FullAssigned s1 ∧
        (conv = true → ∃ d n, s1.derr = some d ∧ s1.nerr = some n ∧
          d < cfg.conv_tol_rdm1 ∧ |n| < cfg.conv_tol_nelec) := by
  intro fuel
  induction fuel with
  | zero => intro s hf; exact absurd hf (by omega)
  | succ k ih =>
    intro s _
    obtain ⟨s1, conv, hb, hfull, himp⟩ := outerBody_ok O cfg h2 s
    cases conv with
    | true =>
      refine ⟨s1, true, ?_, hfull, himp⟩
      simp [outerLoop, hb]
    | false =>
      rcases Nat.eq_zero_or_pos k with hk | hk
      · subst hk
        refine ⟨s1, false, ?_, hfull, fun hcontra => absurd hcontra (by simp)⟩
        simp [outerLoop, hb]
      · obtain ⟨s2, conv2, hrec, hfull2, himp2⟩ := ih s1 hk
        refine ⟨s2, conv2, ?_, hfull2, himp2⟩
        simp [outerLoop, hb, hrec]

/-- With at least two inner and one outer cycle of budget, `fock_loop` runs
to completion — no NameError is ever raised, whatever the collaborators and
tolerances do — and its flag is `true` only when the tolerance test passed
on the final state. -/
theorem fock_loop_run_ok (O : FockOracles GFt SEt F E D) (cfg : FockCfg)
    (h2 : 2 ≤ cfg.max_cycle_inner) (h1 : 1 ≤ cfg.max_cycle_outer)
    (gfa : GFt) (gfb : GFt) (sea : SEt) (seb : SEt) (carried : D) :
    ∃ s conv, fock_loop_run O cfg gfa gfb sea seb carried = .ok (s, conv) ∧
      FullAssigned s ∧
      (conv = true → ∃ d n, s.derr = some d ∧ s.nerr = some n ∧
        d < cfg.conv_tol_rdm1 ∧ |n| < cfg.conv_tol_nelec) := by
  obtain ⟨s1, conv, hloop, hfull, himp⟩ := outerLoop_ok O cfg h2
    cfg.max_cycle_outer
    ⟨sea, seb, gfa, gfb, (O.get_fock_kw (gfa, gfb)).1,
     (O.get_fock_kw (gfa, gfb)).2,
     O.diis_new cfg.diis_space cfg.diis_min_space,
     none, none, none, none, none, none, none, none, none⟩ h1
  obtain ⟨av, hav⟩ := Option.isSome_iff_exists.mp hfull.1.2.2.1
  obtain ⟨bv, hbv⟩ := Option.isSome_iff_exists.mp hfull.1.2.2.2.1
  obtain ⟨dav, hdav⟩ := Option.isSome_iff_exists.mp hfull.2.1
  obtain ⟨dbv, hdbv⟩ := Option.isSome_iff_exists.mp hfull.2.2.1
  refine ⟨s1, conv, ?_, hfull, himp⟩
  simp only [fock_loop_run, hloop, hav, hbv, hdav, hdbv]

/-- C5: when `fock_loop`'s iteration budgets make its loops complete (at
least two inner and one outer cycle), it returns normally — never raising —
and its caller-visible result is the final state's Green's-function and
self-energy pair together with the `converged` flag; moreover, whenever the
tolerance test fails on the final state's residuals — as it does at every
iteration of a run that exhausts `max_cycle_outer` without both the
density-matrix change and the electron-count residual meeting their
tolerances, the final iteration included — the returned flag is `false`. -/
theorem fock_loop_nonconverged_returns_last (O : FockOracles GFt SEt F E D)
    (cfg : FockCfg) (h2 : 2 ≤ cfg.max_cycle_inner)
    (h1 : 1 ≤ cfg.max_cycle_outer)
    (gfa : GFt) (gfb : GFt) (sea : SEt) (seb : SEt) (carried : D) :
    ∃ s conv, fock_loop_run O cfg gfa gfb sea seb carried = .ok (s, conv) ∧
      fock_loop O cfg gfa gfb sea seb carried =
        .ok ((s.gfa, s.gfb), (s.sea, s.seb), conv) ∧
      ((∀ d n, s.derr = some d → s.nerr = some n →
          ¬ (d < cfg.conv_tol_rdm1 ∧ |n| < cfg.conv_tol_nelec)) →
        conv = false) := by
  obtain ⟨s, conv, hr, _, himp⟩ := fock_loop_run_ok O cfg h2 h1 gfa gfb sea
    seb carried
  refine ⟨s, conv, hr, by simp only [fock_loop, hr], ?_⟩
  intro hnever
  cases conv with
  | false => rfl
  | true =>
    obtain ⟨d, n, hd, hn, hlt1, hlt2⟩ := himp rfl
    exact absurd ⟨hlt1, hlt2⟩ (hnever d n hd hn)

/-- Witness for C5: a concrete run whose zero tolerances can never be met
returns normally with the final state's pair, and its `converged` flag
concretely evaluates to `false`. -/
theorem fock_loop_nonconverged_returns_last_witness :
    (∃ s conv,
      fock_loop_run unitOracles neverConvCfg () () () () () =
        .ok (s, conv) ∧
      fock_loop unitOracles neverConvCfg () () () () () =
        .ok ((s.gfa, s.gfb), (s.sea, s.seb), conv) ∧
      ((∀ d n, s.derr = some d → s.nerr = some n →
          ¬ (d < neverConvCfg.conv_tol_rdm1 ∧
            |n| < neverConvCfg.conv_tol_nelec)) →
        conv = false)) ∧
    (fock_loop_run unitOracles neverConvCfg () () () () ()).map
      (fun r => r.2) = .ok false :=
  ⟨fock_loop_nonconverged_returns_last unitOracles neverConvCfg (by decide)
    (by decide) () () () () (), by decide⟩

/-- C8 (amended): the density-matrix-change local is assigned before its
uses at the report and convergence test whenever the inner loop has at least
two cycles of budget. -/
theorem fock_loop_derr_assigned_when_inner_ge_two
    (O : FockOracles GFt SEt F E D) (cfg : FockCfg)
    (h2 : 2 ≤ cfg.max_cycle_inner) (h1 : 1 ≤ cfg.max_cycle_outer)
    (gfa : GFt) (gfb : GFt) (sea : SEt) (seb : SEt) (carried : D) :
    ∃ s conv, fock_loop_run O cfg gfa gfb sea seb carried = .ok (s, conv) ∧
      s.derr.isSome = true := by
  obtain ⟨s, conv, hr, hfull, _⟩ := fock_loop_run_ok O cfg h2 h1 gfa gfb sea
    seb carried
  exact ⟨s, conv, hr, hfull.2.2.2⟩

/-- Witness for the amended C8 at a concrete two-inner-cycle run. -/
theorem fock_loop_derr_assigned_when_inner_ge_two_witness :
    ∃ s conv,
      fock_loop_run unitOracles neverConvCfg () () () () () =
        .ok (s, conv) ∧ s.derr.isSome = true :=
  fock_loop_derr_assigned_when_inner_ge_two unitOracles neverConvCfg
    (by decide) (by decide) () () () () ()

/-- C8 counterexample: with `max_cycle_inner = 1` the single inner iteration
skips the `niter2 > 1` block, so the density-change variable is never
assigned, and the end-of-iteration report (line 264) then reads it unbound:
`fock_loop` raises NameError on `derr` instead of the variable being
"assigned before first use". -/
theorem fock_loop_inner1_derr_unassigned :
    fock_loop_run unitOracles innerOneCfg () () () () () =
      .error (.nameError "derr") := rfl

/-- C2 is violated: a run whose bisection leaves the alpha channel with
signed electron-count residual `-2` (two electrons below target) and the
beta channel with residual `0` is declared `converged = True`, because line
241 aggregates the signed residuals as `nerr = max(nerra, nerrb) = 0` and
line 268 tests only `abs(nerr)`: the claimed per-spin bound (required by the
spec's electron-count invariant) fails, since `|nerra| = 2` exceeds the
configured `conv_tol_nelec = 1`. -/
theorem fock_loop_converged_with_large_alpha_residual :
    (fock_loop_run skewOracles skewCfg () () () () ()).map
        (fun r => (r.2, r.1.nerra)) = .ok (true, some (-2 : ℚ)) ∧
    ¬ (|(-2 : ℚ)| < skewCfg.conv_tol_nelec) := by
  constructor
  · decide
  · rw [abs_neg, abs_of_nonneg (by norm_num : (0 : ℚ) ≤ 2)]
    norm_num [skewCfg]

/-- C7: `fock_loop` is insensitive to any extrapolation state carried over
from an earlier invocation — line 213 constructs the DIIS accumulator fresh
at entry — so with equal integrals, Green's functions, self-energies and
configuration it returns equal results no matter what an earlier call left
behind: the solver is deterministic and stateless across invocations. -/
theorem fock_loop_stateless (O : FockOracles GFt SEt F E D) (cfg : FockCfg)
    (gfa : GFt) (gfb : GFt) (sea : SEt) (seb : SEt) (d1 d2 : D) :
    fock_loop O cfg gfa gfb sea seb d1 =
      fock_loop O cfg gfa gfb sea seb d2 := rfl

end Uagf2
